import Mathlib

/-!
Verification of the trn-line parser of `get_snr_k.py`
(`_AltTree` and `_trn_line_to_transcript`).

The Python parser is embedded as a purely functional state machine:

* `TT` models the heterogeneous items stored in an `_AltTree` branch
  (plain string tokens, or a nested alternate given by its branch list);
* `Entry` models a transcript entry: a plain token, or the tuple
  `(branch_list, -1, -1)` the Python code appends for a top-level
  alternate (the `-1, -1` payload carries no information and is dropped);
* `OpenAlt` models one open (not yet closed) alternate scope: the
  branches completed so far (`done`) and the branch being built (`cur`).
  The chain of `_AltTree` objects reachable via `parent` pointers is the
  stack `ScanState.stack` (innermost scope first) together with the root;
* `ScanState.rootBase` models the root `_AltTree`'s `tokens` list minus
  the aliased element belonging to the currently open top-level
  alternate (which lives in `stack`); the Python
  `assert len(alt_tree.tokens) == 1` at a top-level close is therefore
  the check `rootBase = []`, modelled as the outcome `PErr.assertFail`;
* `warnings.warn` is modelled by returning the Boolean
  `found_alt && warn` ("a warning was emitted") alongside the result.
-/

namespace TrnScan

/-- Python `str.isspace()`, the character class removed by `str.strip()`
with no arguments: U+0009-U+000D, U+001C-U+001F, the space, U+0085
(next line), U+00A0 (no-break space), U+1680 (Ogham space mark),
U+2000-U+200A (typographic spaces), U+2028 (line separator), U+2029
(paragraph separator), U+202F, U+205F and U+3000. -/
def pyIsSpace (c : Char) : Bool :=
  (('\x09' ≤ c && c ≤ '\x0d') || c = ' ') ||
  (('\x1c' ≤ c && c ≤ '\x1f') || c = '\x85' || c = '\xa0') ||
  (c = '\u1680' || ('\u2000' ≤ c && c ≤ '\u200A')) ||
  (c = '\u2028' || c = '\u2029' || c = '\u202F' || c = '\u205F' || c = '\u3000')

/-- Python `line.strip()` on the character list of the line. -/
def pyStrip (l : List Char) : List Char :=
  ((l.dropWhile pyIsSpace).reverse.dropWhile pyIsSpace).reverse

/-- Python `line.rindex(c)`: index of the last occurrence of `c`,
`none` when `c` does not occur (`ValueError` in Python). -/
def rindex? : List Char → Char → Option Nat
  | [], _ => none
  | a :: as, c =>
    match rindex? as c with
    | some i => some (i + 1)
    | none => if a = c then some 0 else none

/-- An item of an `_AltTree` branch: a plain token string, or a nested
alternate represented (as in the Python lists) by its list of branches. -/
inductive TT : Type where
  | tok (s : String)
  | alts (bs : List (List TT))

/-- A transcript entry produced by `_trn_line_to_transcript`: a plain
token string, or the branch list of a top-level alternate (the Python
code wraps it as `(branches, -1, -1)`; the constant payload is dropped). -/
inductive Entry : Type where
  | tok (s : String)
  | alt (bs : List (List TT))

/-- One open alternate scope: branches already completed by `/`
separators, and the branch currently receiving items. -/
structure OpenAlt : Type where
  done : List (List TT)
  cur : List TT

/-- Errors of the parser: `formatError` is the
`IOError("Line does not end in utterance id")`, `emptyAlternate` the
`IOError('Empty alternate found ...')`, and `assertFail` a failure of
`assert len(alt_tree.tokens) == 1`. -/
inductive PErr : Type where
  | formatError
  | emptyAlternate
  | assertFail
deriving DecidableEq

/-- The state of the character scan of `_trn_line_to_transcript`:
the transcript built so far, the pending token (`token` in Python), the
root frame's token list minus the open top-level alternate (`rootBase`),
the stack of open alternate scopes (innermost first), and `found_alt`. -/
structure ScanState : Type where
  transcript : List Entry
  token : String
  rootBase : List TT
  stack : List OpenAlt
  foundAlt : Bool

/-- The scan state at the start of the character loop:
`transcript = []`, `token = ""`, a fresh root `_AltTree`,
`found_alt = False`. -/
def initState : ScanState :=
  { transcript := [], token := "", rootBase := [], stack := [], foundAlt := false }

/-- Flush the pending token, if any: to the transcript when no alternate
scope is open (`alt_tree.parent is None`), else to the current branch. -/
def flushToken (st : ScanState) : ScanState :=
  if st.token = "" then st
  else
    match st.stack with
    | [] => { st with transcript := st.transcript ++ [Entry.tok st.token], token := "" }
    | f :: rest =>
      { st with stack := { f with cur := f.cur ++ [TT.tok st.token] } :: rest, token := "" }

/-- One iteration of the `while len(line)` loop of
`_trn_line_to_transcript` on the character `c`. -/
def scanStep (st : ScanState) (c : Char) : Except PErr ScanState :=
  if c = '\x7b' then
    .ok { flushToken st with stack := ⟨[], []⟩ :: (flushToken st).stack, foundAlt := true }
  else if c = '/' then
    match st.stack with
    | [] => .ok { st with token := st.token.push c }
    | f :: rest =>
      .ok { st with token := "",
                    stack := ⟨f.done ++
                      [if st.token = "" then f.cur else f.cur ++ [TT.tok st.token]], []⟩ :: rest }
  else if c = '\x7d' then
    match st.stack with
    | [] => .ok { st with token := st.token.push c }
    | f :: rest =>
      match (if st.token = "" then f.cur else f.cur ++ [TT.tok st.token]) with
      | [] => .error .emptyAlternate
      | a :: b =>
        match rest with
        | [] =>
          match st.rootBase with
          | [] =>
            .ok { st with transcript := st.transcript ++ [Entry.alt (f.done ++ [a :: b])],
                          token := "", stack := [], rootBase := [] }
          | _ :: _ => .error .assertFail
        | g :: rest2 =>
          .ok { st with token := "",
                        stack := { g with cur := g.cur ++ [TT.alts (f.done ++ [a :: b])] } :: rest2 }
  else if c = ' ' then
    .ok (flushToken st)
  else
    .ok { st with token := st.token.push c }

/-- The whole character loop of `_trn_line_to_transcript`. -/
def scanBody : List Char → ScanState → Except PErr ScanState
  | [], st => .ok st
  | c :: cs, st =>
    match scanStep st c with
    | .error e => .error e
    | .ok st' => scanBody cs st'

/-- The flush after the loop:
`if token and alt_tree.parent is None: transcript.append(token)`. -/
def finalizeT (st : ScanState) : List Entry :=
  match st.stack with
  | [] => if st.token = "" then st.transcript else st.transcript ++ [Entry.tok st.token]
  | _ :: _ => st.transcript

/-- Scan a (stripped) transcript body from the initial state and apply
the final flush; also return `found_alt`. -/
def parseBody (body : List Char) : Except PErr (List Entry × Bool) :=
  match scanBody body initState with
  | .error e => .error e
  | .ok st => .ok (finalizeT st, st.foundAlt)

/-- The body of `_trn_line_to_transcript` after the re-binding
`line = line.strip()`: utterance-id extraction by `rindex`, body scan,
final flush and warning flag. -/
def parseStripped (l : List Char) (warn : Bool) :
    Except PErr (Option (String × List Entry × Bool)) :=
  if l = [] then .ok none
  else
    match rindex? l '(', rindex? l ')' with
    | some lo, some lc =>
      if lc < lo then .error .formatError
      else
        match parseBody (pyStrip (l.take lo)) with
        | .error e => .error e
        | .ok (t, fa) => .ok (some (String.mk ((l.take lc).drop (lo + 1)), t, fa && warn))
    | _, _ => .error .formatError

/-- `_trn_line_to_transcript((line, warn))`. Result `none` models the
Python `return None` on a blank line; otherwise the result carries the
utterance id, the transcript, and whether the alternate warning was
emitted (`found_alt and warn`). -/
def _trn_line_to_transcript (line : String) (warn : Bool) :
    Except PErr (Option (String × List Entry × Bool)) :=
  parseStripped (pyStrip line.data) warn

/-- Whether a parse outcome is a failure of the internal
`assert len(alt_tree.tokens) == 1`. -/
def isAssertFailure : Except PErr (Option (String × List Entry × Bool)) → Bool
  | .error .assertFail => true
  | _ => false

/-- The shape every alternate appended to the transcript has at the
moment its scope is closed: the branch list ends in a branch that is
nonempty after the pending token was flushed into it. -/
def entryOk : Entry → Prop
  | .tok _ => True
  | .alt bs => ∃ b, bs.getLast? = some b ∧ b ≠ []

def line1 : String := "hello world (utt1)"
def line2 : String := "a \x7bb / c\x7d d (utt2)"
def line3 : String := "a \x7bb/c/d\x7d (utt3)"
def line4 : String := "word\x7d (utt4)"
def line5 : String := "a \x7bb (utt5)"
def line6 : String := "a \x7b\x7d (utt6)"
def line7 : String := "no parens here"
def lineSlashClose : String := "\x7ba/\x7d (u)"
def lineSlashOpen : String := "\x7b/a\x7d (u)"
def lineTab : String := "a\tb (u)"
def lineOpenOnly : String := "x \x7by (uttZ)"

/-! ### Characterization of `rindex?` -/

theorem rindex?_eq_none_iff (l : List Char) (c : Char) :
    rindex? l c = none ↔ c ∉ l := by
  induction l with
  | nil => simp [rindex?]
  | cons a as ih =>
    simp only [rindex?]
    cases h : rindex? as c with
    | some i =>
      have hmem : c ∈ as := by
        by_contra hn
        rw [ih.mpr hn] at h
        cases h
      simp [hmem]
    | none =>
      have has : c ∉ as := ih.mp h
      by_cases hac : a = c
      · subst hac
        simp
      · rw [if_neg hac]
        simp only [List.mem_cons]
        constructor
        · intro _ hmem
          rcases hmem with h1 | h2
          · exact hac h1.symm
          · exact has h2
        · intro _
          trivial

theorem rindex?_append_cons (u v : List Char) (c : Char) (hv : c ∉ v) :
    rindex? (u ++ c :: v) c = some u.length := by
  induction u with
  | nil =>
    simp only [List.nil_append, rindex?]
    rw [(rindex?_eq_none_iff v c).mpr hv]
    simp
  | cons a u ih =>
    simp only [List.cons_append, rindex?, List.append_eq]
    rw [ih]
    rfl

theorem rindex?_eq_some_decomp (l : List Char) (c : Char) (i : Nat)
    (h : rindex? l c = some i) :
    ∃ u v, l = u ++ c :: v ∧ c ∉ v ∧ u.length = i := by
  induction l generalizing i with
  | nil => cases h
  | cons a as ih =>
    simp only [rindex?] at h
    cases h2 : rindex? as c with
    | some j =>
      rw [h2] at h
      simp only [Option.some.injEq] at h
      obtain ⟨u, v, heq, hv, hlen⟩ := ih j h2
      refine ⟨a :: u, v, by rw [heq, List.cons_append], hv, ?_⟩
      rw [List.length_cons, hlen, h]
    | none =>
      rw [h2] at h
      by_cases hac : a = c
      · rw [if_pos hac] at h
        simp only [Option.some.injEq] at h
        exact ⟨[], as, by rw [List.nil_append, hac], (rindex?_eq_none_iff as c).mp h2,
          by simpa using h⟩
      · rw [if_neg hac] at h
        cases h

/-- The suffix after the position recorded by a decomposition. -/
theorem drop_of_decomp (l u v : List Char) (c : Char) (h : l = u ++ c :: v) :
    l.drop (u.length + 1) = v := by
  have h2 : l = (u ++ [c]) ++ v := by rw [h]; simp
  rw [h2, List.drop_left' (by simp)]

theorem mem_of_decomp_suffix (l u v : List Char) (c x : Char)
    (h : l = u ++ c :: v) (hx : x ∈ v) : x ∈ l := by
  rw [h]
  exact List.mem_append_right u (List.mem_cons_of_mem c hx)

/-! ### Membership through `pyStrip` -/

theorem mem_dropWhile_iff (l : List Char) (p : Char → Bool) (c : Char)
    (hc : p c = false) : c ∈ l.dropWhile p ↔ c ∈ l := by
  constructor
  · intro h
    have h2 := List.takeWhile_append_dropWhile (p := p) (l := l)
    rw [← h2]
    exact List.mem_append_right _ h
  · intro h
    rw [← List.takeWhile_append_dropWhile (p := p) (l := l)] at h
    rcases List.mem_append.mp h with h1 | h2
    · have := List.mem_takeWhile_imp h1
      rw [hc] at this
      cases this
    · exact h2

theorem mem_pyStrip_iff (l : List Char) (c : Char) (hc : pyIsSpace c = false) :
    c ∈ pyStrip l ↔ c ∈ l := by
  unfold pyStrip
  rw [List.mem_reverse, mem_dropWhile_iff _ _ _ hc, List.mem_reverse,
    mem_dropWhile_iff _ _ _ hc]

/-! ### Dispatch lemmas for `parseStripped` -/

theorem parseStripped_no_open (l : List Char) (w : Bool) (h : l ≠ [])
    (h1 : rindex? l '(' = none) :
    parseStripped l w = .error .formatError := by
  unfold parseStripped
  rw [if_neg h, h1]

theorem parseStripped_no_close (l : List Char) (w : Bool) (h : l ≠ []) (lo : Nat)
    (h1 : rindex? l '(' = some lo) (h2 : rindex? l ')' = none) :
    parseStripped l w = .error .formatError := by
  unfold parseStripped
  rw [if_neg h, h1, h2]

theorem parseStripped_open_after_close (l : List Char) (w : Bool) (h : l ≠ [])
    (lo lc : Nat) (h1 : rindex? l '(' = some lo) (h2 : rindex? l ')' = some lc)
    (hlt : lc < lo) :
    parseStripped l w = .error .formatError := by
  unfold parseStripped
  rw [if_neg h, h1, h2]
  show (if lc < lo then Except.error PErr.formatError else _) = _
  rw [if_pos hlt]

theorem parseStripped_well_formed (l : List Char) (w : Bool) (h : l ≠ [])
    (lo lc : Nat) (h1 : rindex? l '(' = some lo) (h2 : rindex? l ')' = some lc)
    (hge : ¬ lc < lo) :
    parseStripped l w =
      match parseBody (pyStrip (l.take lo)) with
      | .error e => .error e
      | .ok (t, fa) => .ok (some (String.mk ((l.take lc).drop (lo + 1)), t, fa && w)) := by
  unfold parseStripped
  rw [if_neg h, h1, h2]
  show (if lc < lo then Except.error PErr.formatError else _) = _
  rw [if_neg hge]

/-- Splitting a line at the last `(` and the last `)` after it reduces
`parseStripped` to the body scan on the stripped prefix, with the
characters between the parentheses becoming the utterance id verbatim
and the characters after the last `)` discarded. -/
theorem parseStripped_decomp (w : Bool) (pre mid post : List Char)
    (hmid : '(' ∉ mid) (hpost : '(' ∉ post) (hpost2 : ')' ∉ post) :
    parseStripped (pre ++ '(' :: (mid ++ ')' :: post)) w =
      match parseBody (pyStrip pre) with
      | .error e => .error e
      | .ok (t, fa) => .ok (some (String.mk mid, t, fa && w)) := by
  have hne : pre ++ '(' :: (mid ++ ')' :: post) ≠ [] := by simp
  have hmem : '(' ∉ mid ++ ')' :: post := by
    intro hx
    rcases List.mem_append.mp hx with h1 | h1
    · exact hmid h1
    · rcases List.mem_cons.mp h1 with h2 | h2
      · exact absurd h2 (by decide)
      · exact hpost h2
  have hassoc : pre ++ '(' :: (mid ++ ')' :: post) = (pre ++ '(' :: mid) ++ ')' :: post := by
    simp
  have hlo : rindex? (pre ++ '(' :: (mid ++ ')' :: post)) '(' = some pre.length :=
    rindex?_append_cons pre (mid ++ ')' :: post) '(' hmem
  have hlen2 : (pre ++ '(' :: mid).length = pre.length + (mid.length + 1) := by
    rw [List.length_append, List.length_cons]
  have hlc : rindex? (pre ++ '(' :: (mid ++ ')' :: post)) ')' =
      some (pre.length + (mid.length + 1)) := by
    rw [hassoc, rindex?_append_cons (pre ++ '(' :: mid) post ')' hpost2, hlen2]
  have hge : ¬ (pre.length + (mid.length + 1) < pre.length) := by omega
  rw [parseStripped_well_formed _ w hne _ _ hlo hlc hge]
  have htake_lo : (pre ++ '(' :: (mid ++ ')' :: post)).take pre.length = pre :=
    List.take_left' rfl
  have htake_lc : ((pre ++ '(' :: (mid ++ ')' :: post)).take
      (pre.length + (mid.length + 1))).drop (pre.length + 1) = mid := by
    rw [hassoc, List.take_left' hlen2]
    have h3 : pre ++ '(' :: mid = (pre ++ ['(']) ++ mid := by simp
    rw [h3, List.drop_left' (by simp)]
  rw [htake_lo, htake_lc]

/-! ### Structural lemmas about one scan step -/

theorem flushToken_rootBase (st : ScanState) :
    (flushToken st).rootBase = st.rootBase := by
  unfold flushToken
  by_cases h : st.token = ""
  · rw [if_pos h]
  · rw [if_neg h]
    cases st.stack <;> rfl

theorem flushToken_foundAlt (st : ScanState) :
    (flushToken st).foundAlt = st.foundAlt := by
  unfold flushToken
  by_cases h : st.token = ""
  · rw [if_pos h]
  · rw [if_neg h]
    cases st.stack <;> rfl

theorem flushToken_token (st : ScanState) : (flushToken st).token = "" := by
  unfold flushToken
  by_cases h : st.token = ""
  · rw [if_pos h]
    exact h
  · rw [if_neg h]
    cases st.stack <;> rfl

theorem flushToken_entries (st : ScanState)
    (hi : ∀ e ∈ st.transcript, entryOk e) :
    ∀ e ∈ (flushToken st).transcript, entryOk e := by
  unfold flushToken
  by_cases h : st.token = ""
  · rw [if_pos h]
    exact hi
  · rw [if_neg h]
    cases st.stack with
    | nil =>
      intro e he
      rcases List.mem_append.mp he with h1 | h1
      · exact hi e h1
      · rcases List.mem_cons.mp h1 with h2 | h2
        · subst h2
          trivial
        · cases h2
    | cons f rest => exact hi

/-- The only errors a scan step can raise are the empty-alternate error
and, when the root frame's token list is not a singleton at a top-level
close, the assertion failure. -/
theorem scanStep_error_cases (st : ScanState) (c : Char) (e : PErr)
    (h : scanStep st c = .error e) :
    e = .emptyAlternate ∨ (e = .assertFail ∧ st.rootBase ≠ []) := by
  unfold scanStep at h
  repeat' split at h
  all_goals first
    | (exact Except.noConfusion h)
    | (injection h with h2; subst h2; simp_all)

theorem scanStep_ok_rootBase (st st2 : ScanState) (c : Char)
    (h : scanStep st c = .ok st2) :
    st2.rootBase = st.rootBase ∨ st2.rootBase = [] := by
  unfold scanStep at h
  repeat' split at h
  all_goals first
    | (exact Except.noConfusion h)
    | (injection h with h2; subst h2; simp_all [flushToken_rootBase])

theorem scanStep_ok_foundAlt (st st2 : ScanState) (c : Char)
    (h : scanStep st c = .ok st2) :
    st2.foundAlt = true ↔ (st.foundAlt = true ∨ c = '\x7b') := by
  unfold scanStep at h
  repeat' split at h
  all_goals first
    | (exact Except.noConfusion h)
    | (injection h with h2; subst h2; simp_all [flushToken_foundAlt])

theorem scanStep_entries (st st2 : ScanState) (c : Char)
    (h : scanStep st c = .ok st2) (hi : ∀ e ∈ st.transcript, entryOk e) :
    ∀ e ∈ st2.transcript, entryOk e := by
  unfold scanStep at h
  repeat' split at h
  all_goals first
    | (exact Except.noConfusion h)
    | (injection h with h2; subst h2; exact hi)
    | (injection h with h2; subst h2; exact flushToken_entries st hi)
    | (injection h with h2
       subst h2
       intro e he
       rcases List.mem_append.mp he with h1 | h1
       · exact hi e h1
       · rcases List.mem_cons.mp h1 with h2 | h2
         · subst h2
           exact ⟨_, List.getLast?_concat _, List.cons_ne_nil _ _⟩
         · cases h2)

/-! ### Invariants carried through the whole scan -/

theorem scanBody_rootBase (cs : List Char) (st st2 : ScanState)
    (h : scanBody cs st = .ok st2) (h0 : st.rootBase = []) : st2.rootBase = [] := by
  induction cs generalizing st with
  | nil =>
    injection h with h4
    subst h4
    exact h0
  | cons c cs ih =>
    simp only [scanBody] at h
    cases h2 : scanStep st c with
    | error e =>
      rw [h2] at h
      exact Except.noConfusion (show (Except.error e : Except PErr ScanState) = .ok st2 from h)
    | ok st1 =>
      rw [h2] at h
      have h3 : scanBody cs st1 = .ok st2 := h
      rcases scanStep_ok_rootBase st st1 c h2 with hr | hr
      · exact ih st1 h3 (hr.trans h0)
      · exact ih st1 h3 hr

theorem scanBody_foundAlt (cs : List Char) (st st2 : ScanState)
    (h : scanBody cs st = .ok st2) :
    st2.foundAlt = true ↔ (st.foundAlt = true ∨ '\x7b' ∈ cs) := by
  induction cs generalizing st with
  | nil =>
    injection h with h4
    subst h4
    simp
  | cons c cs ih =>
    simp only [scanBody] at h
    cases h2 : scanStep st c with
    | error e =>
      rw [h2] at h
      exact Except.noConfusion (show (Except.error e : Except PErr ScanState) = .ok st2 from h)
    | ok st1 =>
      rw [h2] at h
      have h3 : scanBody cs st1 = .ok st2 := h
      rw [ih st1 h3, scanStep_ok_foundAlt st st1 c h2]
      simp only [List.mem_cons]
      constructor
      · rintro ((hf | hc) | hm)
        · exact Or.inl hf
        · exact Or.inr (Or.inl hc.symm)
        · exact Or.inr (Or.inr hm)
      · rintro (hf | hc | hm)
        · exact Or.inl (Or.inl hf)
        · exact Or.inl (Or.inr hc.symm)
        · exact Or.inr hm

theorem scanBody_entries (cs : List Char) (st st2 : ScanState)
    (h : scanBody cs st = .ok st2) (hi : ∀ e ∈ st.transcript, entryOk e) :
    ∀ e ∈ st2.transcript, entryOk e := by
  induction cs generalizing st with
  | nil =>
    injection h with h4
    subst h4
    exact hi
  | cons c cs ih =>
    simp only [scanBody] at h
    cases h2 : scanStep st c with
    | error e =>
      rw [h2] at h
      exact Except.noConfusion (show (Except.error e : Except PErr ScanState) = .ok st2 from h)
    | ok st1 =>
      rw [h2] at h
      have h3 : scanBody cs st1 = .ok st2 := h
      exact ih st1 h3 (scanStep_entries st st1 c h2 hi)

/-- Started from a state whose root frame holds no extra items, the scan
can only fail with the empty-alternate error: the format error belongs
to id extraction and the internal assertion never fires. -/
theorem scanBody_error_cases (cs : List Char) (st : ScanState) (e : PErr)
    (h : scanBody cs st = .error e) (h0 : st.rootBase = []) :
    e = .emptyAlternate := by
  induction cs generalizing st with
  | nil =>
    exact Except.noConfusion (show (Except.ok st : Except PErr ScanState) = .error e from h)
  | cons c cs ih =>
    simp only [scanBody] at h
    cases h2 : scanStep st c with
    | error e2 =>
      rw [h2] at h
      have h4 : (Except.error e2 : Except PErr ScanState) = .error e := h
      injection h4 with h5
      rcases scanStep_error_cases st c e2 h2 with h6 | h6
      · rw [← h5]
        exact h6
      · exact absurd h0 h6.2
    | ok st1 =>
      rw [h2] at h
      have h3 : scanBody cs st1 = .error e := h
      rcases scanStep_ok_rootBase st st1 c h2 with hr | hr
      · exact ih st1 h3 (hr.trans h0)
      · exact ih st1 h3 hr

/-! ### Lemmas about `parseBody` and `finalizeT` -/

theorem finalizeT_of_open_stack (st : ScanState) (f : OpenAlt) (r : List OpenAlt)
    (hst : st.stack = f :: r) : finalizeT st = st.transcript := by
  unfold finalizeT
  rw [hst]

theorem finalizeT_entries (st : ScanState)
    (hi : ∀ e ∈ st.transcript, entryOk e) :
    ∀ e ∈ finalizeT st, entryOk e := by
  unfold finalizeT
  cases st.stack with
  | nil =>
    by_cases h : st.token = ""
    · rw [if_pos h]
      exact hi
    · rw [if_neg h]
      intro e he
      rcases List.mem_append.mp he with h1 | h1
      · exact hi e h1
      · rcases List.mem_cons.mp h1 with h2 | h2
        · subst h2
          trivial
        · cases h2
  | cons f r => exact hi

theorem parseBody_error (body : List Char) (e : PErr)
    (h : parseBody body = .error e) : e = .emptyAlternate := by
  unfold parseBody at h
  cases h2 : scanBody body initState with
  | error e2 =>
    rw [h2] at h
    have h4 : (Except.error e2 : Except PErr (List Entry × Bool)) = .error e := h
    injection h4 with h5
    rw [← h5]
    exact scanBody_error_cases body initState e2 h2 rfl
  | ok st =>
    rw [h2] at h
    exact Except.noConfusion
      (show (Except.ok (finalizeT st, st.foundAlt) : Except PErr (List Entry × Bool)) =
        .error e from h)

theorem parseBody_ok (body : List Char) (t : List Entry) (fa : Bool)
    (h : parseBody body = .ok (t, fa)) :
    ∃ st, scanBody body initState = .ok st ∧ finalizeT st = t ∧ st.foundAlt = fa := by
  unfold parseBody at h
  cases h2 : scanBody body initState with
  | error e =>
    rw [h2] at h
    exact Except.noConfusion
      (show (Except.error e : Except PErr (List Entry × Bool)) = .ok (t, fa) from h)
  | ok st =>
    rw [h2] at h
    have h4 : (Except.ok (finalizeT st, st.foundAlt) : Except PErr (List Entry × Bool)) =
        .ok (t, fa) := h
    injection h4 with h5
    injection h5 with h6 h7
    exact ⟨st, rfl, h6, h7⟩

theorem parseBody_entries (body : List Char) (t : List Entry) (fa : Bool)
    (h : parseBody body = .ok (t, fa)) : ∀ e ∈ t, entryOk e := by
  obtain ⟨st, h1, h2, h3⟩ := parseBody_ok body t fa h
  rw [← h2]
  exact finalizeT_entries st (scanBody_entries body initState st h1 (by intro e he; cases he))

theorem parseBody_foundAlt_iff (body : List Char) (t : List Entry) (fa : Bool)
    (h : parseBody body = .ok (t, fa)) : fa = true ↔ '\x7b' ∈ body := by
  obtain ⟨st, h1, h2, h3⟩ := parseBody_ok body t fa h
  rw [← h3, scanBody_foundAlt body initState st h1]
  simp [initState]

/-- Exhaustive shape of `parseStripped` results: blank line, format
error, or the well-formed path through the body scan. -/
theorem parseStripped_result (l : List Char) (w : Bool) :
    parseStripped l w = .ok none ∨
    parseStripped l w = .error .formatError ∨
    (∃ lo lc, rindex? l '(' = some lo ∧ rindex? l ')' = some lc ∧ ¬ lc < lo ∧
      parseStripped l w =
        match parseBody (pyStrip (l.take lo)) with
        | .error e => .error e
        | .ok (t, fa) => .ok (some (String.mk ((l.take lc).drop (lo + 1)), t, fa && w))) := by
  by_cases hl : l = []
  · left
    unfold parseStripped
    rw [if_pos hl]
  · cases h1 : rindex? l '(' with
    | none =>
      right; left
      exact parseStripped_no_open l w hl h1
    | some lo =>
      cases h2 : rindex? l ')' with
      | none =>
        right; left
        exact parseStripped_no_close l w hl lo h1 h2
      | some lc =>
        by_cases hlt : lc < lo
        · right; left
          exact parseStripped_open_after_close l w hl lo lc h1 h2 hlt
        · right; right
          exact ⟨lo, lc, rfl, rfl, hlt, parseStripped_well_formed l w hl lo lc h1 h2 hlt⟩

/-- A successfully returned transcript always comes out of `parseBody`,
with the returned warning flag `found_alt && warn`. -/
theorem parse_ok_parts (line : String) (warn : Bool) (u : String) (t : List Entry) (w : Bool)
    (hp : _trn_line_to_transcript line warn = .ok (some (u, t, w))) :
    ∃ body fa, parseBody body = .ok (t, fa) ∧ w = (fa && warn) := by
  unfold _trn_line_to_transcript at hp
  rcases parseStripped_result (pyStrip line.data) warn with h1 | h1 | ⟨lo, lc, _, _, _, h1⟩
  · rw [h1] at hp
    injection hp with h5
    exact Option.noConfusion h5
  · rw [h1] at hp
    exact Except.noConfusion hp
  · rw [h1] at hp
    cases h2 : parseBody (pyStrip ((pyStrip line.data).take lo)) with
    | error e =>
      rw [h2] at hp
      exact Except.noConfusion hp
    | ok r =>
      obtain ⟨t2, fa⟩ := r
      rw [h2] at hp
      injection hp with h5
      injection h5 with h6
      injection h6 with h7 h8
      injection h8 with h9 h10
      rw [h9] at h2
      exact ⟨_, fa, h2, h10.symm⟩

theorem parse_no_assert (line : String) (warn : Bool)
    (h : _trn_line_to_transcript line warn = .error .assertFail) : False := by
  unfold _trn_line_to_transcript at h
  rcases parseStripped_result (pyStrip line.data) warn with h1 | h1 | ⟨lo, lc, _, _, _, h1⟩
  · rw [h1] at h
    exact Except.noConfusion h
  · rw [h1] at h
    injection h with h5
    exact PErr.noConfusion h5
  · rw [h1] at h
    cases h2 : parseBody (pyStrip ((pyStrip line.data).take lo)) with
    | error e =>
      rw [h2] at h
      injection h with h5
      rw [parseBody_error _ e h2] at h5
      exact PErr.noConfusion h5
    | ok r =>
      obtain ⟨t, fa⟩ := r
      rw [h2] at h
      exact Except.noConfusion h

/-! ### The claims -/

/-- Claim C1: for every non-blank line whose last `(` precedes its last
`)` — exhibited by splitting the stripped line as
`pre ++ '(' :: (mid ++ ')' :: post)` with no `(` in `mid` or `post` and
no `)` in `post` — the parser returns the verbatim `mid` (spaces and
punctuation included, unvalidated) as the utterance id, discards `post`
(the text after the last `)`), and builds the transcript only from
`pre` (the text before the last `(`) trimmed of surrounding
whitespace. -/
theorem c1_utt_id_extraction (line : String) (warn : Bool) (pre mid post : List Char)
    (hd : pyStrip line.data = pre ++ '(' :: (mid ++ ')' :: post))
    (hmid : '(' ∉ mid) (hpost : '(' ∉ post) (hpost2 : ')' ∉ post) :
    _trn_line_to_transcript line warn =
      match parseBody (pyStrip pre) with
      | .error e => .error e
      | .ok (t, fa) => .ok (some (String.mk mid, t, fa && warn)) := by
  unfold _trn_line_to_transcript
  rw [hd]
  exact parseStripped_decomp warn pre mid post hmid hpost hpost2

/-- Witness for C1 at the line `"hello world (utt1)"`. -/
theorem c1_utt_id_extraction_witness :
    _trn_line_to_transcript line1 false =
      match parseBody (pyStrip
          ('h' :: 'e' :: 'l' :: 'l' :: 'o' :: ' ' :: 'w' :: 'o' :: 'r' :: 'l' :: 'd' :: ' ' :: [])) with
      | .error e => .error e
      | .ok (t, fa) =>
        .ok (some (String.mk ('u' :: 't' :: 't' :: '1' :: []), t, fa && false)) :=
  c1_utt_id_extraction line1 false
    ('h' :: 'e' :: 'l' :: 'l' :: 'o' :: ' ' :: 'w' :: 'o' :: 'r' :: 'l' :: 'd' :: ' ' :: [])
    ('u' :: 't' :: 't' :: '1' :: []) [] rfl (by decide) (by decide) (by decide)

/-- Claim C2: `"a \x7bb / c\x7d d (utt2)"` parses to the three entries
token `"a"`, an alternate (a distinct constructor from plain tokens)
with branches `[["b"], ["c"]]`, and token `"d"`; `"a \x7bb/c/d\x7d (utt3)"`
parses to a transcript whose sole alternate has the three branches
`[["b"], ["c"], ["d"]]`. -/
theorem c2_alternate_branches :
    _trn_line_to_transcript line2 true =
      .ok (some ("utt2",
        [Entry.tok "a", Entry.alt [[TT.tok "b"], [TT.tok "c"]], Entry.tok "d"], true)) ∧
    _trn_line_to_transcript line3 true =
      .ok (some ("utt3",
        [Entry.tok "a", Entry.alt [[TT.tok "b"], [TT.tok "c"], [TT.tok "d"]]], true)) :=
  ⟨rfl, rfl⟩

/-- Claim C3: a `/` or `\x7d` scanned while no alternate scope is open is
neither an error nor a separator/close: it is appended to the pending
token as a literal character; in particular `"word\x7d (utt4)"` parses to
the single token `"word\x7d"`. -/
theorem c3_stray_metachar_literal :
    (∀ (st : ScanState) (c : Char), st.stack = [] → (c = '/' ∨ c = '\x7d') →
      scanStep st c = .ok { st with token := st.token.push c }) ∧
    _trn_line_to_transcript line4 true =
      .ok (some ("utt4", [Entry.tok "word\x7d"], false)) := by
  constructor
  · rintro st c hst (rfl | rfl)
    · unfold scanStep
      rw [if_neg (by decide), if_pos rfl]
      simp only [hst]
    · unfold scanStep
      rw [if_neg (by decide), if_neg (by decide), if_pos rfl]
      simp only [hst]
  · rfl

/-- Witness for C3: a stray `/` in the root scope is appended to the
pending token. -/
theorem c3_stray_metachar_literal_witness :
    scanStep initState '/' = .ok { initState with token := initState.token.push '/' } :=
  c3_stray_metachar_literal.1 initState '/' rfl (Or.inl rfl)

/-- Claim C4: when the scan ends with an alternate scope still open, the
whole unfinished alternate (pending token included: it lives in the open
frame, not in the transcript) is absent from the result and no error is
raised; in particular `"a \x7bb (utt5)"` parses to `[Token "a"]`. -/
theorem c4_unterminated_alternate :
    (∀ (body : List Char) (st : ScanState) (f : OpenAlt) (r : List OpenAlt),
      scanBody body initState = .ok st → st.stack = f :: r →
      parseBody body = .ok (st.transcript, st.foundAlt)) ∧
    _trn_line_to_transcript line5 true = .ok (some ("utt5", [Entry.tok "a"], true)) := by
  constructor
  · intro body st f r h hst
    unfold parseBody
    rw [h]
    show Except.ok (finalizeT st, st.foundAlt) = _
    rw [finalizeT_of_open_stack st f r hst]
  · rfl

/-- Witness for C4: after scanning `"a \x7bb"` the stack is open and the
pending token `"b"` is dropped from the result. -/
theorem c4_unterminated_alternate_witness :
    parseBody ('a' :: ' ' :: '\x7b' :: 'b' :: []) = .ok ([Entry.tok "a"], true) :=
  c4_unterminated_alternate.1 ('a' :: ' ' :: '\x7b' :: 'b' :: [])
    { transcript := [Entry.tok "a"], token := "b", rootBase := [],
      stack := [⟨[], []⟩], foundAlt := true } ⟨[], []⟩ [] rfl rfl

/-- Claim C8 counterexample: a tab is a whitespace character
(`pyIsSpace '\t' = true`), yet the scan does not flush the pending token
at a tab — it appends the tab as a literal character, so
`"a\tb (u)"` parses to the single token `"a\tb"`, not to `"a"` and
`"b"`. -/
theorem c8_counterexample :
    pyIsSpace '\t' = true ∧
    scanStep { transcript := [], token := "a", rootBase := [], stack := [],
               foundAlt := false } '\t' =
      .ok { transcript := [], token := "a\t", rootBase := [], stack := [],
            foundAlt := false } ∧
    _trn_line_to_transcript lineTab true = .ok (some ("u", [Entry.tok "a\tb"], false)) :=
  ⟨rfl, rfl, rfl⟩

/-- Claim C8 amended: exactly the space character `' '` flushes the
pending token (into the transcript root when no scope is open, else into
the current branch), the flush resets the pending token, a flush of an
empty pending token is a no-op (so consecutive spaces collapse and no
empty token is emitted), and every other character — including non-space
whitespace such as tab — that is not `\x7b`, `/`, or `\x7d` is appended
to the pending token as a literal. -/
theorem c8_space_flush :
    (∀ st : ScanState, scanStep st ' ' = .ok (flushToken st)) ∧
    (∀ st : ScanState, (flushToken st).token = "") ∧
    (∀ st : ScanState, st.token = "" → flushToken st = st) ∧
    (∀ (st : ScanState) (c : Char), c ≠ '\x7b' → c ≠ '/' → c ≠ '\x7d' → c ≠ ' ' →
      scanStep st c = .ok { st with token := st.token.push c }) := by
  refine ⟨?_, flushToken_token, ?_, ?_⟩
  · intro st
    unfold scanStep
    rw [if_neg (by decide), if_neg (by decide), if_neg (by decide), if_pos rfl]
  · intro st h
    unfold flushToken
    rw [if_pos h]
  · intro st c h1 h2 h3 h4
    unfold scanStep
    rw [if_neg h1, if_neg h2, if_neg h3, if_neg h4]

/-- Witness for C8 amended: flushing an empty token is a no-op, and a
tab is appended as a literal. -/
theorem c8_space_flush_witness :
    flushToken initState = initState ∧
    scanStep initState '\t' = .ok { initState with token := initState.token.push '\t' } :=
  ⟨c8_space_flush.2.2.1 initState rfl,
   c8_space_flush.2.2.2 initState '\t' (by decide) (by decide) (by decide) (by decide)⟩

/-- Claim C5 counterexample: closing an alternate whose completed
branches contain the token `"a"` but whose current (final) branch is
empty raises the empty-alternate error — the check looks only at the
current branch, not at all collected branches; accordingly
`"\x7ba/\x7d (u)"` raises although a branch holds a token. -/
theorem c5_counterexample :
    scanStep { transcript := [], token := "", rootBase := [],
               stack := [⟨[[TT.tok "a"]], []⟩], foundAlt := true } '\x7d' =
      .error .emptyAlternate ∧
    _trn_line_to_transcript lineSlashClose true = .error .emptyAlternate :=
  ⟨rfl, rfl⟩

/-- Claim C5 amended: the `\x7d` handler fails with the empty-alternate
error if and only if the pending token is empty and the closing scope's
current (final) branch is empty — content of earlier branches is not
consulted; in particular `"a \x7b\x7d (utt6)"` raises
the empty-alternate error. -/
theorem c5_close_empty_iff :
    (∀ (st : ScanState) (f : OpenAlt) (r : List OpenAlt), st.stack = f :: r →
      (scanStep st '\x7d' = .error .emptyAlternate ↔ (st.token = "" ∧ f.cur = []))) ∧
    _trn_line_to_transcript line6 true = .error .emptyAlternate := by
  constructor
  · intro st f r hst
    unfold scanStep
    rw [if_neg (by decide), if_neg (by decide), if_pos rfl]
    simp only [hst]
    by_cases htok : st.token = ""
    · rw [if_pos htok]
      cases hf : f.cur with
      | nil => simp [htok]
      | cons a b =>
        cases r with
        | nil =>
          cases hrb : st.rootBase with
          | nil => simp
          | cons x xs => simp
        | cons g r2 => simp
    · rw [if_neg htok]
      cases hf : f.cur with
      | nil =>
        simp only [List.nil_append]
        cases r with
        | nil =>
          cases hrb : st.rootBase with
          | nil => simp [htok]
          | cons x xs => simp [htok]
        | cons g r2 => simp [htok]
      | cons a b =>
        simp only [List.cons_append]
        cases r with
        | nil =>
          cases hrb : st.rootBase with
          | nil => simp [htok]
          | cons x xs => simp [htok]
        | cons g r2 => simp [htok]
  · rfl

/-- Witness for C5 amended: a close with empty pending token and empty
current branch raises the empty-alternate error. -/
theorem c5_close_empty_iff_witness :
    scanStep { transcript := [], token := "", rootBase := [],
               stack := [⟨[], []⟩], foundAlt := true } '\x7d' = .error .emptyAlternate :=
  (c5_close_empty_iff.1
    { transcript := [], token := "", rootBase := [],
      stack := [⟨[], []⟩], foundAlt := true } ⟨[], []⟩ [] rfl).mpr ⟨rfl, rfl⟩

/-- Claim C6 counterexample: `"\x7b/a\x7d (u)"` closes an alternate whose
first branch is empty; the alternate is returned in the transcript with
its empty branch rather than causing a fatal parse error. -/
theorem c6_counterexample :
    _trn_line_to_transcript lineSlashOpen true =
      .ok (some ("u", [Entry.alt [[], [TT.tok "a"]]], true)) ∧
    ([] : List TT) ∈ [([] : List TT), [TT.tok "a"]] :=
  ⟨rfl, List.mem_cons_self _ _⟩

/-- Claim C6 amended: every Alternate entry of a successfully returned
transcript has a nonempty final branch (hence at least one branch with
at least one item); only an alternate whose final branch ends up empty
is a fatal parse error — branches other than the final one may be empty
and are returned as-is. -/
theorem c6_last_branch_nonempty (line : String) (warn : Bool)
    (u : String) (t : List Entry) (w : Bool)
    (hp : _trn_line_to_transcript line warn = .ok (some (u, t, w))) :
    ∀ bs, Entry.alt bs ∈ t → ∃ b, bs.getLast? = some b ∧ b ≠ [] := by
  obtain ⟨body, fa, h2, _⟩ := parse_ok_parts line warn u t w hp
  intro bs hmem
  exact parseBody_entries body t fa h2 (Entry.alt bs) hmem

/-- Witness for C6 amended at `"\x7b/a\x7d (u)"`. -/
theorem c6_last_branch_nonempty_witness :
    ∃ b, ([[], [TT.tok "a"]] : List (List TT)).getLast? = some b ∧ b ≠ [] :=
  c6_last_branch_nonempty lineSlashOpen true ("u") ([Entry.alt [[], [TT.tok "a"]]]) true rfl
    ([[], [TT.tok "a"]]) (List.mem_cons_self _ _)

/-- Claim C7: a non-blank line fails with the format error exactly when
its stripped text has no `(`, or everything after its last `(` contains
no `)` (which covers both "the last `(` is after the last `)`" and
"there is no `)` at all"); no other line shape produces this error. -/
theorem c7_format_error_iff (line : String) (warn : Bool)
    (h : pyStrip line.data ≠ []) :
    _trn_line_to_transcript line warn = .error .formatError ↔
      ('(' ∉ pyStrip line.data ∨
        ∃ u v, pyStrip line.data = u ++ '(' :: v ∧ '(' ∉ v ∧ ')' ∉ v) := by
  unfold _trn_line_to_transcript
  cases h1 : rindex? (pyStrip line.data) '(' with
  | none =>
    refine iff_of_true ?_ (Or.inl ((rindex?_eq_none_iff _ _).mp h1))
    exact parseStripped_no_open _ warn h h1
  | some lo =>
    obtain ⟨u, v, hdec, hv, hlen⟩ := rindex?_eq_some_decomp _ '(' lo h1
    cases h2 : rindex? (pyStrip line.data) ')' with
    | none =>
      have hnc : ')' ∉ pyStrip line.data := (rindex?_eq_none_iff _ _).mp h2
      refine iff_of_true (parseStripped_no_close _ warn h lo h1 h2)
        (Or.inr ⟨u, v, hdec, hv, fun hx => hnc (mem_of_decomp_suffix _ u v '(' ')' hdec hx)⟩)
    | some lc =>
      obtain ⟨u2, v2, hdec2, hv2, hlen2⟩ := rindex?_eq_some_decomp _ ')' lc h2
      by_cases hlt : lc < lo
      · refine iff_of_true (parseStripped_open_after_close _ warn h lo lc h1 h2 hlt)
          (Or.inr ⟨u, v, hdec, hv, ?_⟩)
        intro hx
        have hdv : (pyStrip line.data).drop (u.length + 1) = v :=
          drop_of_decomp _ u v '(' hdec
        have hdv2 : (pyStrip line.data).drop (u2.length + 1) = v2 :=
          drop_of_decomp _ u2 v2 ')' hdec2
        have heq2 : v2.drop (lo - lc) = v := by
          rw [← hdv, ← hdv2, List.drop_drop]
          congr 1
          omega
        rw [← heq2] at hx
        exact hv2 (List.mem_of_mem_drop hx)
      · refine iff_of_false ?_ ?_
        · rw [parseStripped_well_formed _ warn h lo lc h1 h2 hlt]
          cases h3 : parseBody (pyStrip ((pyStrip line.data).take lo)) with
          | error e =>
            simp only [h3]
            intro hE
            injection hE with h5
            rw [parseBody_error _ e h3] at h5
            exact PErr.noConfusion h5
          | ok r =>
            obtain ⟨t, fa⟩ := r
            simp only [h3]
            intro hE
            exact Except.noConfusion hE
        · rintro (hno | ⟨u3, v3, hdec3, hv3, hv4⟩)
          · exact hno (by
              rw [hdec]
              exact List.mem_append_right u (List.mem_cons_self _ _))
          · have h1b : rindex? (pyStrip line.data) '(' = some u3.length := by
              rw [hdec3]
              exact rindex?_append_cons u3 v3 '(' hv3
            rw [h1] at h1b
            injection h1b with h1c
            have hlen3 : u.length = u3.length := by omega
            obtain ⟨hu3, hcv3⟩ := List.append_inj (hdec.symm.trans hdec3) hlen3
            injection hcv3 with hx1 hx2
            have hne2 : lo ≠ lc := by
              intro hEq
              have hlen4 : u.length = u2.length := by omega
              obtain ⟨hu2, hcv2⟩ := List.append_inj (hdec.symm.trans hdec2) hlen4
              injection hcv2 with hy1 hy2
              exact absurd hy1 (by decide)
            have hlo_lt : lo < lc := by omega
            have hmem2 : ')' ∈ (pyStrip line.data).drop (lo + 1) := by
              rw [hdec2, List.drop_append_of_le_length (by omega)]
              exact List.mem_append_right _ (List.mem_cons_self _ _)
            have hdv : (pyStrip line.data).drop (u.length + 1) = v :=
              drop_of_decomp _ u v '(' hdec
            rw [hlen] at hdv
            rw [hdv, hx2] at hmem2
            exact hv4 hmem2

/-- Witness for C7: `"no parens here"` raises the format error. -/
theorem c7_format_error_iff_witness :
    _trn_line_to_transcript line7 true = .error .formatError :=
  (c7_format_error_iff line7 true (by decide)).mpr (Or.inl (by decide))

/-- Claim C9 counterexample: for `"x \x7by (uttZ)"` with the warning flag
set, the only alternate is opened but never closed, and the returned
transcript contains no alternate — yet the warning is emitted (the flag
is `true`), because `found_alt` is set at `\x7b`, on opening. -/
theorem c9_counterexample :
    _trn_line_to_transcript lineOpenOnly true =
      .ok (some ("uttZ", [Entry.tok "x"], true)) :=
  rfl

/-- Claim C9 amended: the warning is signalled if and only if the
warning flag is set and at least one alternate was OPENED (a `\x7b` was
scanned in the transcript body) — closing is not required. -/
theorem c9_warning_iff (line : String) (warn : Bool) (pre mid post : List Char)
    (hd : pyStrip line.data = pre ++ '(' :: (mid ++ ')' :: post))
    (hmid : '(' ∉ mid) (hpost : '(' ∉ post) (hpost2 : ')' ∉ post)
    (u : String) (t : List Entry) (w : Bool)
    (hp : _trn_line_to_transcript line warn = .ok (some (u, t, w))) :
    w = true ↔ (warn = true ∧ '\x7b' ∈ pre) := by
  unfold _trn_line_to_transcript at hp
  rw [hd, parseStripped_decomp warn pre mid post hmid hpost hpost2] at hp
  cases h2 : parseBody (pyStrip pre) with
  | error e =>
    rw [h2] at hp
    exact Except.noConfusion hp
  | ok r =>
    obtain ⟨t2, fa⟩ := r
    rw [h2] at hp
    injection hp with h5
    injection h5 with h6
    injection h6 with h7 h8
    injection h8 with h9 h10
    rw [← h10, Bool.and_eq_true, parseBody_foundAlt_iff (pyStrip pre) t2 fa h2,
      mem_pyStrip_iff pre '\x7b' (by decide)]
    exact and_comm

/-- Witness for C9 amended at `"x \x7by (uttZ)"`. -/
theorem c9_warning_iff_witness :
    (true = true ↔ (true = true ∧ '\x7b' ∈ ('x' :: ' ' :: '\x7b' :: 'y' :: ' ' :: []))) :=
  c9_warning_iff lineOpenOnly true ('x' :: ' ' :: '\x7b' :: 'y' :: ' ' :: [])
    ('u' :: 't' :: 't' :: 'Z' :: []) [] rfl (by decide) (by decide) (by decide)
    ("uttZ") ([Entry.tok "x"]) true rfl

/-- Claim C10: at every top-level close the root frame's token list is
exactly the just-closed alternate (the internal assertion
`len(alt_tree.tokens) == 1` never fails on any input), and the root
token list is reset afterwards: a completed scan always leaves the
root's extra token list empty, so plain tokens never accumulate in the
root frame itself. -/
theorem c10_root_singleton :
    (∀ (body : List Char) (st : ScanState),
      scanBody body initState = .ok st → st.rootBase = []) ∧
    (∀ (line : String) (warn : Bool),
      isAssertFailure (_trn_line_to_transcript line warn) = false) := by
  constructor
  · intro body st h
    exact scanBody_rootBase body initState st h rfl
  · intro line warn
    cases hp : _trn_line_to_transcript line warn with
    | ok v => rfl
    | error e =>
      cases e with
      | formatError => rfl
      | emptyAlternate => rfl
      | assertFail => exact (parse_no_assert line warn hp).elim

/-- Witness for C10: the scan of `"a"` leaves the root's extra token
list empty, and a format-error line does not trip the assertion. -/
theorem c10_root_singleton_witness :
    ({ transcript := [], token := "a", rootBase := [], stack := [],
       foundAlt := false } : ScanState).rootBase = [] ∧
    isAssertFailure (_trn_line_to_transcript line7 true) = false :=
  ⟨c10_root_singleton.1 ('a' :: [])
    { transcript := [], token := "a", rootBase := [], stack := [], foundAlt := false } rfl,
   c10_root_singleton.2 line7 true⟩

end TrnScan
